import Mathlib

/-!
Verification development for the `S3ModelCache` class
(`src/app/s3modelcache/model_cache.py`).

Strings are embedded as `List Char` (`Str`); Python `str` operations used by
the source (`replace`, `rstrip`, slicing, `lower`, prefix/suffix tests) are
modelled by the corresponding character-list operations.  The local cache
directory and the S3 bucket are modelled as association lists from names/keys
to entries/objects; transport failures of `upload_file` are injected through
a `uploadFails : Str → Bool` oracle, mirroring a simulated `ClientError` on
the put path.  `snapshot_download` (the external HuggingFace fetcher) is
modelled by an `Option Tree` parameter: `none` means the fetch raises,
`some t` means it materializes the directory tree `t` at the local path.
-/

namespace S3ModelCache

/-- A Python string, embedded as its character sequence. -/
abbrev Str := List Char

/-- Opaque file contents (a byte sequence). -/
abbrev Blob := List Nat

/-- A directory tree, as produced by `Path.rglob("*")`: the regular files it
contains, each given by its relative path (list of path segments) and its
byte content.  Directories appear only implicitly as path prefixes; an empty
directory contributes no element (only `is_file()` entries are compressed or
uploaded by the source). -/
abbrev Tree := List (List Str × Blob)

/-- `model_id.replace('/', '_')` — the pattern is the single character `/`,
so the replacement is a character map. -/
def sanitize (model_id : Str) : Str :=
  model_id.map (fun c => if c = '/' then '_' else c)

/-- `s3_prefix.rstrip("/")`: remove every trailing `/`. -/
def rstripSlash (s : Str) : Str :=
  (s.reverse.dropWhile (fun c => c = '/')).reverse

/-- `self.s3_prefix = s3_prefix.rstrip("/") + "/"` (constructor, line 58). -/
def normalizePrefix (s : Str) : Str :=
  rstripSlash s ++ ['/']

/-- The configuration fields of an `S3ModelCache` instance that the cache
logic reads.  They are set once in `__init__` and never assigned afterwards;
every operation below takes the `Config` as a read-only argument, so no
operation can change `s3Prefix` or `store_as_archive`. -/
structure Config where
  s3Prefix : Str
  store_as_archive : Bool

/-- `".tar.gz"`, the archive suffix (7 characters). -/
def tarExt : Str := ".tar.gz".data

/-- `_get_s3_key`: `f"{self.s3_prefix}{model_id.replace('/', '_')}.tar.gz"`. -/
def get_s3_key (cfg : Config) (model_id : Str) : Str :=
  cfg.s3Prefix ++ sanitize model_id ++ tarExt

/-- `_get_local_path`: `self.local_cache_dir / model_id.replace("/", "_")`,
with the `pathlib` join rendered as a `/`-separated path. -/
def get_local_path (root : Str) (model_id : Str) : Str :=
  root ++ '/' :: sanitize model_id

/-- The basename of `_get_local_path` — the entry name inside the local
cache directory. -/
def localName (model_id : Str) : Str := sanitize model_id

/-- `_get_s3_prefix_for_dir`: `f"{self.s3_prefix}{model_id.replace('/', '_')}/"`. -/
def get_s3_prefix_for_dir (cfg : Config) (model_id : Str) : Str :=
  cfg.s3Prefix ++ sanitize model_id ++ ['/']

/-- An object stored in the bucket (or written as a plain file in the local
cache directory): either raw file bytes, or a tar.gz archive whose entries
are the `(arcname, bytes)` pairs written by `_compress_model`. -/
inductive Obj where
  | bytes (b : Blob)
  | tar (entries : Tree)
deriving DecidableEq

/-- An entry of the local cache directory: a model directory (holding a file
tree) or a plain file (a temporary archive).  `list_cached_models("local")`
keeps only the `dir` entries (`p.is_dir()`). -/
inductive Entry where
  | dir (t : Tree)
  | file (o : Obj)
deriving DecidableEq

instance : Inhabited Obj := ⟨.bytes []⟩

instance : Inhabited Entry := ⟨.file (.bytes [])⟩

/-- The mutable state the cache operations act on: the entries of the local
cache directory (by name) and the bucket objects (by key). -/
structure CacheState where
  localDir : List (Str × Entry)
  s3 : List (Str × Obj)
deriving DecidableEq

/-- Association-list lookup by name. -/
def alookup {α : Type} (n : Str) : List (Str × α) → Option α
  | [] => none
  | e :: rest => if e.1 = n then some e.2 else alookup n rest

/-- Remove every binding of `n` (deleting a path / an object key). -/
def aremove {α : Type} (n : Str) (l : List (Str × α)) : List (Str × α) :=
  l.filter (fun e => e.1 ≠ n)

/-- Overwrite the binding of `n` (writing a file / putting an object). -/
def ainsert {α : Type} (n : Str) (v : α) (l : List (Str × α)) : List (Str × α) :=
  (n, v) :: aremove n l

/-- `_model_exists_in_s3`: `head_object` succeeds iff the key is bound. -/
def model_exists_in_s3 (key : Str) (s3 : List (Str × Obj)) : Bool :=
  (alookup key s3).isSome

/-- `_model_dir_exists_in_s3`: `list_objects_v2(Prefix=...)` returns at
least one key, i.e. some object key starts with the directory prefix. -/
def model_dir_exists_in_s3 (cfg : Config) (model_id : Str)
    (s3 : List (Str × Obj)) : Bool :=
  s3.any (fun kv => (get_s3_prefix_for_dir cfg model_id).isPrefixOf kv.1)

/-- `_compress_model(model_path, archive_path)`: walk every regular file of
the tree and add it under arcname `model_path.name / relative_path`.  The
result is the entry list of the produced tar.gz. -/
def compress_model (dirName : Str) (t : Tree) : Tree :=
  t.map (fun f => (dirName :: f.1, f.2))

/-- One filesystem write of `tar.extract`: the member's path overwrites any
previous file at that path. -/
def fsWrite (fs : Tree) (f : List Str × Blob) : Tree :=
  (f.1, f.2) :: fs.filter (fun g => g.1 ≠ f.1)

/-- `_extract_model(archive_path, extract_dir)`: extract the file members
one by one into `extract_dir.parent`; each member lands at the path given
by its arcname, relative to that parent directory.  `fs` is the file set
already present under the parent. -/
def extract_model (fs : Tree) (archive : Tree) : Tree :=
  archive.foldl fsWrite fs

/-- `delete_cached_model(model_id, local=..., s3=...)` (lines 348–383).
Local tier: `shutil.rmtree` if the path exists, counting as success.
Remote tier, archive mode: `delete_object` on the archive key — the S3 call
succeeds whether or not the key exists, so `success` is set unconditionally.
Remote tier, directory mode: list the keys under the prefix and bulk-delete
them, counting as success only if the list was non-empty.  Transport errors
on the delete calls themselves are not modelled (the claims under study
inject failures only on uploads). -/
def delete_cached_model (cfg : Config) (st : CacheState) (model_id : Str)
    (localFlag : Bool) (s3 : Bool) : Bool × CacheState :=
  let name := localName model_id
  let (okL, localDir') :=
    if localFlag then
      if (alookup name st.localDir).isSome then (true, aremove name st.localDir)
      else (false, st.localDir)
    else (false, st.localDir)
  let (okS, s3') :=
    if s3 then
      if cfg.store_as_archive then
        (true, aremove (get_s3_key cfg model_id) st.s3)
      else
        let prefix_ := get_s3_prefix_for_dir cfg model_id
        let toDelete := st.s3.filter (fun kv => prefix_.isPrefixOf kv.1)
        if toDelete ≠ [] then
          (true, st.s3.filter (fun kv => ¬ prefix_.isPrefixOf kv.1))
        else (false, st.s3)
    else (false, st.s3)
  (okL || okS, ⟨localDir', s3'⟩)

/-- `str(rel)` for a relative path of segments, joined with `/`. -/
def joinPath : List Str → Str
  | [] => []
  | [s] => s
  | s :: rest => s ++ '/' :: joinPath rest

/-- `_upload_dir_to_s3`: upload the regular files of the tree in order,
each to `prefix + str(rel)`; on the first failed upload set `success =
False` and `break`.  Returns the success flag, the bucket contents after
the puts that happened, and the number of `upload_file` calls made. -/
def upload_dir_to_s3 (uploadFails : Str → Bool) (prefix_ : Str) :
    Tree → List (Str × Obj) → Bool × List (Str × Obj) × Nat
  | [], s3 => (true, s3, 0)
  | f :: rest, s3 =>
    let key := prefix_ ++ joinPath f.1
    if uploadFails key then (false, s3, 1)
    else
      let (ok, s3', n) := upload_dir_to_s3 uploadFails prefix_ rest (ainsert key (.bytes f.2) s3)
      (ok, s3', n + 1)

/-- Instrumentation: how many times a call invoked the upstream fetcher
(`snapshot_download`), the compressor (`_compress_model`), and the S3 put
operation (`upload_file`, counting the attempt that fails). -/
structure Trace where
  fetches : Nat
  compressions : Nat
  uploads : Nat
deriving DecidableEq

/-- The directory tree `Path.rglob` sees at a local path: a `dir` entry
yields its files; a plain file or a missing path yields nothing. -/
def treeOf : Option Entry → Tree
  | some (.dir t) => t
  | _ => []

/-- `cache_model_to_s3(model_id, force_upload)` (lines 231–272), the
`ensureCached` operation.  `fetchResult` stands for `snapshot_download`
(`none` = the fetch raises); `uploadFails` injects `ClientError` on
`upload_file` by key.  Returns the boolean result, the final state, and
the instrumentation trace. -/
def cache_model_to_s3 (cfg : Config) (uploadFails : Str → Bool)
    (fetchResult : Option Tree) (st : CacheState) (model_id : Str)
    (force_upload : Bool) : Bool × CacheState × Trace :=
  let name := localName model_id
  -- fast path: remote representation already present and not force_upload
  if cfg.store_as_archive &&
      (!force_upload && model_exists_in_s3 (get_s3_key cfg model_id) st.s3) then
    (true, st, ⟨0, 0, 0⟩)
  else if !cfg.store_as_archive &&
      (!force_upload && model_dir_exists_in_s3 cfg model_id st.s3) then
    (true, st, ⟨0, 0, 0⟩)
  else
    -- materialize the local entry if missing
    let fetched : Option (CacheState × Nat) :=
      match alookup name st.localDir with
      | some _ => some (st, 0)
      | none =>
        match fetchResult with
        | some t => some (⟨ainsert name (.dir t) st.localDir, st.s3⟩, 1)
        | none => none
    match fetched with
    | none =>
      -- fetcher raised: clean up both tiers and return failure
      let (_, st') := delete_cached_model cfg st model_id true true
      (false, st', ⟨1, 0, 0⟩)
    | some (st1, nf) =>
      if cfg.store_as_archive then
        let tree := treeOf (alookup name st1.localDir)
        let archName := name ++ tarExt
        let archive := Obj.tar (compress_model name tree)
        -- _compress_model writes the temporary archive into the cache dir
        let st2 : CacheState := ⟨ainsert archName (.file archive) st1.localDir, st1.s3⟩
        let key := get_s3_key cfg model_id
        if uploadFails key then
          let (_, st3) := delete_cached_model cfg st2 model_id true true
          -- archive_path.unlink(missing_ok=True)
          let st4 : CacheState := ⟨aremove archName st3.localDir, st3.s3⟩
          (false, st4, ⟨nf, 1, 1⟩)
        else
          let st3 : CacheState := ⟨st2.localDir, ainsert key archive st2.s3⟩
          let st4 : CacheState := ⟨aremove archName st3.localDir, st3.s3⟩
          (true, st4, ⟨nf, 1, 1⟩)
      else
        let tree := treeOf (alookup name st1.localDir)
        let (ok, s3', n) :=
          upload_dir_to_s3 uploadFails (get_s3_prefix_for_dir cfg model_id) tree st1.s3
        let st2 : CacheState := ⟨st1.localDir, s3'⟩
        if ok then (true, st2, ⟨nf, 0, n⟩)
        else
          let (_, st3) := delete_cached_model cfg st2 model_id true true
          (false, st3, ⟨nf, 0, n⟩)

/-- The directory tree the upload step of `cache_model_to_s3` operates on:
the tree already at the local path if the entry exists, otherwise the tree
the fetcher materialized. -/
def uploadTree (fetchResult : Option Tree) (st : CacheState) (name : Str) : Tree :=
  match alookup name st.localDir with
  | some e => treeOf (some e)
  | none => fetchResult.getD []

/-- `source.lower()`, per character (agrees with Python on ASCII). -/
def strLower (s : Str) : Str := s.map Char.toLower

/-- The S3 branch of `list_cached_models` (lines 328–345): iterate the keys
under the configured prefix (the paginator's `Prefix` filter); archive mode
appends `key[len(prefix):-7]` for each key ending in `.tar.gz`; directory
mode appends the first path segment after the prefix when new. -/
def listS3Models (cfg : Config) (s3 : List (Str × Obj)) : List Str :=
  (s3.filter (fun kv => cfg.s3Prefix.isPrefixOf kv.1)).foldl
    (fun models kv =>
      let key := kv.1
      if cfg.store_as_archive then
        if tarExt.isSuffixOf key then
          models ++ [(key.drop cfg.s3Prefix.length).take (key.length - cfg.s3Prefix.length - 7)]
        else models
      else
        let rest := key.drop cfg.s3Prefix.length
        if rest = [] then models
        else
          let model_name := rest.takeWhile (fun c => c ≠ '/')
          if model_name ≠ [] ∧ model_name ∉ models then models ++ [model_name]
          else models)
    []

/-- `list_cached_models(source)` (lines 316–346): lowercase the argument,
dispatch on `"local"` / `"s3"`, otherwise raise `ValueError` (modelled as
`Except.error ()`). -/
def list_cached_models (cfg : Config) (st : CacheState) (source : Str) :
    Except Unit (List Str) :=
  let source := strLower source
  if source = "local".data then
    .ok ((st.localDir.filter (fun e => match e.2 with | .dir _ => true | _ => false)).map (·.1))
  else if source = "s3".data then
    .ok (listS3Models cfg st.s3)
  else
    .error ()

/-! ## Helper lemmas -/

theorem head?_dropWhile_false {α : Type} (p : α → Bool) :
    ∀ (l : List α) (a : α), (l.dropWhile p).head? = some a → p a = false := by
  intro l
  induction l with
  | nil => intro a h; simp [List.dropWhile] at h
  | cons x xs ih =>
    intro a h
    rw [List.dropWhile_cons] at h
    by_cases hx : p x = true
    · exact ih a (by simpa [hx] using h)
    · rw [if_neg hx] at h
      have hxa : x = a := by simpa using h
      subst hxa
      simpa using hx

theorem alookup_ainsert {α : Type} (n : Str) (v : α) (l : List (Str × α)) :
    alookup n (ainsert n v l) = some v := by
  simp [ainsert, alookup]

theorem aremove_cons_self {α : Type} {e : Str × α} {rest : List (Str × α)} {n : Str}
    (h : e.1 = n) : aremove n (e :: rest) = aremove n rest := by
  simp [aremove, List.filter_cons, h]

theorem aremove_cons_ne {α : Type} {e : Str × α} {rest : List (Str × α)} {n : Str}
    (h : ¬ e.1 = n) : aremove n (e :: rest) = e :: aremove n rest := by
  simp [aremove, List.filter_cons, h]

theorem alookup_aremove {α : Type} (n : Str) (l : List (Str × α)) :
    alookup n (aremove n l) = none := by
  induction l with
  | nil => rfl
  | cons e rest ih =>
    by_cases h : e.1 = n
    · rw [aremove_cons_self h]; exact ih
    · rw [aremove_cons_ne h, alookup, if_neg h]; exact ih

theorem alookup_aremove_ne {α : Type} {n m : Str} (h : n ≠ m) (l : List (Str × α)) :
    alookup n (aremove m l) = alookup n l := by
  induction l with
  | nil => rfl
  | cons e rest ih =>
    by_cases he : e.1 = m
    · have hen : ¬ e.1 = n := by rw [he]; exact fun hc => h hc.symm
      rw [aremove_cons_self he, alookup, if_neg hen]; exact ih
    · rw [aremove_cons_ne he, alookup, alookup]
      by_cases hn : e.1 = n
      · rw [if_pos hn, if_pos hn]
      · rw [if_neg hn, if_neg hn]; exact ih

theorem append_ne_self_of_ne_nil {l t : Str} (h : t ≠ []) : l ≠ l ++ t := by
  intro hc
  have hlen := congrArg List.length hc
  rw [List.length_append] at hlen
  have ht : t.length = 0 := by omega
  exact h (List.length_eq_zero.mp ht)

theorem list_fold_append {α β : Type} (c : α → Bool) (f : α → β) :
    ∀ (l : List α) (acc : List β),
      l.foldl (fun ms kv => if c kv then ms ++ [f kv] else ms) acc
        = acc ++ (l.filter c).map f := by
  intro l
  induction l with
  | nil => intro acc; simp
  | cons a rest ih =>
    intro acc
    by_cases h : c a = true <;>
      simp [List.foldl, List.filter_cons, h, ih]

/-! ## C5, C9, C8 — the key mapper -/

/-- C5: the key-mapping helpers are pure functions of the identifier and
replace `/` by `_`: for identifier `huggingface/bert-base-uncased` and
configured prefix `models/`, `_get_local_path` returns
`<cache_root>/huggingface_bert-base-uncased` and `_get_s3_key` returns
`models/huggingface_bert-base-uncased.tar.gz` (for either storage mode). -/
theorem key_mapping_example :
    (∀ (root : Str) (cfg : Config), cfg.s3Prefix = "models/".data →
      get_local_path root "huggingface/bert-base-uncased".data
          = root ++ '/' :: "huggingface_bert-base-uncased".data
        ∧ get_s3_key cfg "huggingface/bert-base-uncased".data
          = "models/huggingface_bert-base-uncased.tar.gz".data)
    ∧ sanitize "huggingface/bert-base-uncased".data
        = "huggingface_bert-base-uncased".data := by
  refine ⟨fun root cfg hp => ⟨?_, ?_⟩, by decide⟩
  · show root ++ '/' :: sanitize "huggingface/bert-base-uncased".data
        = root ++ '/' :: "huggingface_bert-base-uncased".data
    exact congrArg (fun l => root ++ '/' :: l) (by decide)
  · show cfg.s3Prefix ++ sanitize "huggingface/bert-base-uncased".data ++ tarExt
        = "models/huggingface_bert-base-uncased.tar.gz".data
    rw [hp]
    decide

/-- Closed instance of `key_mapping_example` at a concrete root and config. -/
theorem key_mapping_example_witness :
    get_local_path "./model_cache".data "huggingface/bert-base-uncased".data
        = "./model_cache".data ++ '/' :: "huggingface_bert-base-uncased".data
      ∧ get_s3_key ⟨"models/".data, true⟩ "huggingface/bert-base-uncased".data
        = "models/huggingface_bert-base-uncased.tar.gz".data :=
  key_mapping_example.1 "./model_cache".data ⟨"models/".data, true⟩ rfl

/-- C9: identifier sanitization is not injective — the distinct identifiers
`a/b` and `a_b` are mapped to the same local path, the same archive key and
the same directory prefix by `_get_local_path`, `_get_s3_key` and
`_get_s3_prefix_for_dir`. -/
theorem sanitize_not_injective :
    "a/b".data ≠ "a_b".data
    ∧ ∀ (root : Str) (cfg : Config),
        get_local_path root "a/b".data = get_local_path root "a_b".data
        ∧ get_s3_key cfg "a/b".data = get_s3_key cfg "a_b".data
        ∧ get_s3_prefix_for_dir cfg "a/b".data = get_s3_prefix_for_dir cfg "a_b".data := by
  refine ⟨by decide, fun root cfg => ?_⟩
  have h : sanitize "a/b".data = sanitize "a_b".data := by decide
  refine ⟨?_, ?_, ?_⟩
  · show root ++ '/' :: sanitize "a/b".data = root ++ '/' :: sanitize "a_b".data
    rw [h]
  · show cfg.s3Prefix ++ sanitize "a/b".data ++ tarExt
        = cfg.s3Prefix ++ sanitize "a_b".data ++ tarExt
    rw [h]
  · show cfg.s3Prefix ++ sanitize "a/b".data ++ ['/']
        = cfg.s3Prefix ++ sanitize "a_b".data ++ ['/']
    rw [h]

/-- C8: for every prefix string given to the constructor, the stored
`self.s3_prefix` is the input with all trailing `/` stripped and exactly one
`/` appended — it ends in a `/` and the character before that final `/` (if
any) is not a `/`.  The prefix is a `Config` field: every operation in this
development takes `Config` read-only, so no operation changes it. -/
theorem s3_prefix_normalized (p : Str) :
    ∃ q : Str, normalizePrefix p = q ++ ['/'] ∧ q.getLast? ≠ some '/' := by
  refine ⟨rstripSlash p, rfl, fun hlast => ?_⟩
  have h : (p.reverse.dropWhile (fun c => c = '/')).head? = some '/' := by
    have := hlast
    rw [rstripSlash, List.getLast?_reverse] at this
    exact this
  have := head?_dropWhile_false (fun c => c = '/') p.reverse '/' h
  simp at this

/-! ## C7, C10 — listing -/

/-- C7: in archive mode, the S3 branch of `list_cached_models` returns one
identifier per object whose key lies under the configured prefix and ends in
`.tar.gz`, with the prefix and the 7-character suffix stripped; in
particular, for a bucket holding exactly `models/a_model.tar.gz` and
`models/b_model.tar.gz` under prefix `models/` it returns exactly
`[a_model, b_model]`. -/
theorem list_s3_archive_mode :
    (∀ (p : Str) (s3 : List (Str × Obj)),
      listS3Models ⟨p, true⟩ s3
        = ((s3.filter (fun kv => p.isPrefixOf kv.1)).filter
            (fun kv => tarExt.isSuffixOf kv.1)).map
            (fun kv => (kv.1.drop p.length).take (kv.1.length - p.length - 7)))
    ∧ list_cached_models ⟨"models/".data, true⟩
        ⟨[], [("models/a_model.tar.gz".data, .bytes []), ("models/b_model.tar.gz".data, .bytes [])]⟩
        "s3".data
      = .ok ["a_model".data, "b_model".data] := by
  constructor
  · intro p s3
    exact list_fold_append (fun kv : Str × Obj => tarExt.isSuffixOf kv.1)
      (fun kv : Str × Obj => (kv.1.drop p.length).take (kv.1.length - p.length - 7))
      (s3.filter (fun kv => p.isPrefixOf kv.1)) []
  · rfl

/-- C10: `list_cached_models` lowercases its `source` argument before
dispatching — any casing of `local` / `s3` (e.g. `LOCAL`, `S3`) is accepted —
and it raises `ValueError` exactly when the lowercased argument is neither
`local` nor `s3`. -/
theorem list_cached_models_dispatch (cfg : Config) (st : CacheState) :
    (∀ source : Str,
      (list_cached_models cfg st source = .error ()
        ↔ ¬(strLower source = "local".data ∨ strLower source = "s3".data)))
    ∧ (∃ l, list_cached_models cfg st "LOCAL".data = .ok l)
    ∧ (∃ l, list_cached_models cfg st "S3".data = .ok l) := by
  refine ⟨fun source => ?_, ?_, ?_⟩
  · by_cases h1 : strLower source = "local".data
    · simp [list_cached_models, h1]
    · by_cases h2 : strLower source = "s3".data
      · simp [list_cached_models, h1, h2]
      · simp [list_cached_models, h1, h2]
  · exact ⟨_, rfl⟩
  · exact ⟨_, rfl⟩

/-! ## C4 — compress/extract round-trip -/

theorem mem_fsWrite {fs : Tree} {f x : List Str × Blob} :
    x ∈ fsWrite fs f ↔ x = f ∨ (x ∈ fs ∧ x.1 ≠ f.1) := by
  constructor
  · intro h
    rcases List.mem_cons.mp h with h1 | h2
    · left
      rw [h1]
    · rcases List.mem_filter.mp h2 with ⟨hm, hp⟩
      exact Or.inr ⟨hm, by simpa using hp⟩
  · intro h
    rcases h with h1 | ⟨hm, hp⟩
    · rw [h1]
      exact List.mem_cons_self _ _
    · exact List.mem_cons.mpr (Or.inr (List.mem_filter.mpr ⟨hm, by simpa using hp⟩))

/-- Extraction into a file set whose paths are disjoint from the archive's
(distinct) member paths writes exactly the archive's members next to the
existing files. -/
theorem extract_model_mem :
    ∀ (archive fs : Tree), (archive.map Prod.fst).Nodup →
      (∀ f ∈ fs, f.1 ∉ archive.map Prod.fst) →
      ∀ x, x ∈ extract_model fs archive ↔ x ∈ fs ∨ x ∈ archive := by
  intro archive
  induction archive with
  | nil =>
    intro fs _ _ x
    simp [extract_model]
  | cons a rest ih =>
    intro fs hnd hdisj x
    have hnd' : (rest.map Prod.fst).Nodup := (List.nodup_cons.mp (by simpa using hnd)).2
    have hna : a.1 ∉ rest.map Prod.fst := (List.nodup_cons.mp (by simpa using hnd)).1
    have hdisj' : ∀ f ∈ fsWrite fs a, f.1 ∉ rest.map Prod.fst := by
      intro f hf
      rcases mem_fsWrite.mp hf with h1 | ⟨hm, _⟩
      · rw [h1]; exact hna
      · intro hc
        exact hdisj f hm (List.mem_cons.mpr (Or.inr hc))
    have hstep : extract_model fs (a :: rest) = extract_model (fsWrite fs a) rest := rfl
    rw [hstep, ih (fsWrite fs a) hnd' hdisj', mem_fsWrite]
    constructor
    · rintro ((h1 | ⟨hm, _⟩) | h2)
      · exact Or.inr (h1 ▸ List.mem_cons_self _ _)
      · exact Or.inl hm
      · exact Or.inr (List.mem_cons.mpr (Or.inr h2))
    · rintro (hm | h2)
      · refine Or.inl (Or.inr ⟨hm, fun hc => ?_⟩)
        exact hdisj x hm (List.mem_cons.mpr (Or.inl (by rw [hc])))
      · rcases List.mem_cons.mp h2 with h1 | h3
        · exact Or.inl (Or.inl h1)
        · exact Or.inr h3

/-- C4: for every directory tree of regular files (with distinct relative
paths, as a filesystem walk yields), extracting the archive produced by
`_compress_model` into a fresh destination reproduces exactly the tree's
relative paths and byte-identical contents, rooted at the source directory's
own name: a file extracted at `dirName :: p` with content `c` exists iff
`(p, c)` is a file of the source tree, and every extracted file is of that
form. -/
theorem compress_extract_roundtrip (dirName : Str) (tree : Tree)
    (hnd : (tree.map Prod.fst).Nodup) :
    (∀ (p : List Str) (c : Blob),
      (dirName :: p, c) ∈ extract_model [] (compress_model dirName tree) ↔ (p, c) ∈ tree)
    ∧ ∀ f ∈ extract_model [] (compress_model dirName tree),
        ∃ p, f.1 = dirName :: p ∧ (p, f.2) ∈ tree := by
  have hkeys : (compress_model dirName tree).map Prod.fst
      = (tree.map Prod.fst).map (fun q => dirName :: q) := by
    simp [compress_model]
  have hnd' : ((compress_model dirName tree).map Prod.fst).Nodup := by
    rw [hkeys]
    exact hnd.map (fun q r h => by injection h)
  have hmem := extract_model_mem (compress_model dirName tree) [] hnd' (by simp)
  constructor
  · intro p c
    rw [hmem (dirName :: p, c)]
    simp only [List.not_mem_nil, false_or]
    constructor
    · intro h
      rcases List.mem_map.mp h with ⟨b, hb, heq⟩
      have h1 : dirName :: b.1 = dirName :: p := congrArg Prod.fst heq
      have h2 : b.2 = c := congrArg Prod.snd heq
      have hb1 : b.1 = p := by injection h1
      have hbe : b = (p, c) := Prod.ext hb1 h2
      rwa [hbe] at hb
    · intro h
      exact List.mem_map.mpr ⟨(p, c), h, rfl⟩
  · intro f hf
    rcases (hmem f).mp hf with h | h
    · simp at h
    · rcases List.mem_map.mp h with ⟨b, hb, heq⟩
      refine ⟨b.1, ?_, ?_⟩
      · rw [← heq]
      · have h2 : f.2 = b.2 := by rw [← heq]
        rw [h2]
        simpa using hb

/-- Closed instance of `compress_extract_roundtrip` on a two-file tree. -/
theorem compress_extract_roundtrip_witness :
    (("m".data :: [['a']], ([1] : Blob))
        ∈ extract_model [] (compress_model "m".data [([['a']], [1]), ([['b']], [2])])) :=
  (compress_extract_roundtrip "m".data [([['a']], [1]), ([['b']], [2])] (by decide)).1
    [['a']] [1] |>.mpr (by decide)

/-! ## C3 — eviction result -/

/-- C3 (counterexample to the claim as stated): in archive mode (the
default), deleting a never-cached identifier with both tiers requested
returns `True` although nothing was removed — the state is unchanged —
because `delete_object` succeeds whether or not the key exists. -/
theorem delete_never_cached_archive_cex :
    (delete_cached_model ⟨"models/".data, true⟩ ⟨[], []⟩ "never/cached".data true true).1 = true
    ∧ (delete_cached_model ⟨"models/".data, true⟩ ⟨[], []⟩ "never/cached".data true true).2
      = ⟨[], []⟩ := by
  constructor
  · decide
  · rfl

/-- C3 (amended): `delete_cached_model` returns `True` iff the local
deletion was requested and the local entry existed, or the remote deletion
was requested in archive mode (where `delete_object` succeeds regardless of
the object's existence), or the remote deletion was requested in directory
mode and at least one object existed under the identifier's prefix.  In
particular a never-cached identifier with both deletions requested yields
`False` in directory mode. -/
theorem delete_result_iff (cfg : Config) (st : CacheState) (model_id : Str)
    (localFlag s3Flag : Bool) :
    ((delete_cached_model cfg st model_id localFlag s3Flag).1 = true ↔
      (localFlag = true ∧ (alookup (localName model_id) st.localDir).isSome = true)
      ∨ (s3Flag = true ∧ cfg.store_as_archive = true)
      ∨ (s3Flag = true ∧ cfg.store_as_archive = false
          ∧ st.s3.filter (fun kv => (get_s3_prefix_for_dir cfg model_id).isPrefixOf kv.1) ≠ []))
    ∧ (delete_cached_model ⟨cfg.s3Prefix, false⟩ ⟨[], []⟩ model_id true true).1 = false := by
  refine ⟨?_, rfl⟩
  simp only [delete_cached_model]
  cases localFlag <;> cases s3Flag <;> cases hA : cfg.store_as_archive <;>
    cases hk : (alookup (localName model_id) st.localDir).isSome <;>
    by_cases hd : st.s3.filter
        (fun kv => (get_s3_prefix_for_dir cfg model_id).isPrefixOf kv.1) = [] <;>
    simp [hA, hk, hd]


theorem upload_dir_to_s3_fails (fails : Str → Bool) (prefix_ : Str) :
    ∀ (files : Tree) (s3 : List (Str × Obj)),
      (∃ f ∈ files, fails (prefix_ ++ joinPath f.1) = true) →
      (upload_dir_to_s3 fails prefix_ files s3).1 = false := by
  intro files
  induction files with
  | nil => intro s3 h; simp at h
  | cons f rest ih =>
    intro s3 h
    by_cases hf : fails (prefix_ ++ joinPath f.1) = true
    · simp [upload_dir_to_s3, hf]
    · rcases h with ⟨g, hg, hfail⟩
      rcases List.mem_cons.mp hg with h1 | h2
      · exact absurd (h1 ▸ hfail) hf
      · have hrec := ih (ainsert (prefix_ ++ joinPath f.1) (.bytes f.2) s3) ⟨g, h2, hfail⟩
        rcases hu : upload_dir_to_s3 fails prefix_ rest
            (ainsert (prefix_ ++ joinPath f.1) (.bytes f.2) s3) with ⟨ok, s3', n⟩
        rw [hu] at hrec
        simp [upload_dir_to_s3, hf, hu]
        exact hrec


theorem upload_dir_to_s3_any (fails : Str → Bool) (prefix_ : Str) :
    ∀ (files : Tree) (s3 : List (Str × Obj)),
      (upload_dir_to_s3 fails prefix_ files s3).1 = true →
      (files ≠ [] ∨ s3.any (fun kv => prefix_.isPrefixOf kv.1) = true) →
      (upload_dir_to_s3 fails prefix_ files s3).2.1.any
        (fun kv => prefix_.isPrefixOf kv.1) = true := by
  intro files
  induction files with
  | nil =>
    intro s3 _ hne
    rcases hne with hne | hany
    · exact absurd rfl hne
    · exact hany
  | cons f rest ih =>
    intro s3 hok _
    by_cases hf : fails (prefix_ ++ joinPath f.1) = true
    · simp [upload_dir_to_s3, hf] at hok
    · have hkey : prefix_.isPrefixOf (prefix_ ++ joinPath f.1) = true :=
        List.isPrefixOf_iff_prefix.mpr (List.prefix_append _ _)
      rcases hu : upload_dir_to_s3 fails prefix_ rest
          (ainsert (prefix_ ++ joinPath f.1) (.bytes f.2) s3) with ⟨ok, s3', n⟩
      have hok' : ok = true := by
        have h2 := hok
        simp [upload_dir_to_s3, hf, hu] at h2
        exact h2
      have hany' : (ainsert (prefix_ ++ joinPath f.1) (.bytes f.2) s3).any
          (fun kv => prefix_.isPrefixOf kv.1) = true := by
        show (prefix_.isPrefixOf (prefix_ ++ joinPath f.1)
            || (aremove (prefix_ ++ joinPath f.1) s3).any (fun kv => prefix_.isPrefixOf kv.1)) = true
        rw [hkey, Bool.true_or]
      have hrec := ih (ainsert (prefix_ ++ joinPath f.1) (.bytes f.2) s3)
        (by rw [hu]; exact hok') (Or.inr hany')
      rw [hu] at hrec
      have hgoal : (upload_dir_to_s3 fails prefix_ (f :: rest) s3).2.1 = s3' := by
        simp [upload_dir_to_s3, hf, hu]
      rw [hgoal]
      exact hrec


/-- Cleanup with both tiers requested leaves no local entry for the
identifier, no archive object at its key, and no object under its
directory prefix. -/
theorem delete_both_clean (cfg : Config) (st : CacheState) (model_id : Str) :
    alookup (localName model_id) (delete_cached_model cfg st model_id true true).2.localDir = none
    ∧ (cfg.store_as_archive = true →
        alookup (get_s3_key cfg model_id) (delete_cached_model cfg st model_id true true).2.s3 = none)
    ∧ (cfg.store_as_archive = false →
        ∀ kv ∈ (delete_cached_model cfg st model_id true true).2.s3,
          (get_s3_prefix_for_dir cfg model_id).isPrefixOf kv.1 = false) := by
  refine ⟨?_, ?_, ?_⟩
  · cases hk : (alookup (localName model_id) st.localDir).isSome
    · have hnone : alookup (localName model_id) st.localDir = none :=
        Option.not_isSome_iff_eq_none.mp (by simp [hk])
      cases hA : cfg.store_as_archive <;>
        by_cases hd : st.s3.filter
            (fun kv => (get_s3_prefix_for_dir cfg model_id).isPrefixOf kv.1) = [] <;>
        simp [delete_cached_model, hk, hA, hd, hnone]
    · cases hA : cfg.store_as_archive <;>
        by_cases hd : st.s3.filter
            (fun kv => (get_s3_prefix_for_dir cfg model_id).isPrefixOf kv.1) = [] <;>
        simp [delete_cached_model, hk, hA, hd, alookup_aremove]
  · intro hA
    cases hk : (alookup (localName model_id) st.localDir).isSome <;>
      simp [delete_cached_model, hk, hA, alookup_aremove]
  · intro hA
    cases hk : (alookup (localName model_id) st.localDir).isSome <;>
      by_cases hd : st.s3.filter
          (fun kv => (get_s3_prefix_for_dir cfg model_id).isPrefixOf kv.1) = [] <;>
      intro kv hkv <;>
      simp [delete_cached_model, hk, hA, hd] at hkv
    all_goals first
      | exact Bool.eq_false_iff.mpr (fun hb => (List.filter_eq_nil_iff.mp hd kv hkv) hb)
      | exact Bool.eq_false_iff.mpr (fun hb => hkv.2 (List.isPrefixOf_iff_prefix.mp hb))


/-- C6: in archive mode, every call of `cache_model_to_s3` that reaches the
compression step (the fast path did not return and the local entry exists or
the fetch succeeds) removes the temporary archive file
`<cache_root>/<sanitizedId>.tar.gz` before returning, on the success and the
failure path alike. -/
theorem temp_archive_always_removed (cfg : Config) (uploadFails : Str → Bool)
    (fetchResult : Option Tree) (st : CacheState) (model_id : Str) (force_upload : Bool)
    (harch : cfg.store_as_archive = true)
    (hfast : (!force_upload && model_exists_in_s3 (get_s3_key cfg model_id) st.s3) = false)
    (hreach : (alookup (localName model_id) st.localDir).isSome = true ∨ fetchResult.isSome = true) :
    alookup (localName model_id ++ tarExt)
      (cache_model_to_s3 cfg uploadFails fetchResult st model_id force_upload).2.1.localDir
      = none := by
  cases hk : alookup (localName model_id) st.localDir with
  | some e =>
    cases hup : uploadFails (get_s3_key cfg model_id) <;>
      simp [cache_model_to_s3, harch, hfast, hk, hup, alookup_aremove]
  | none =>
    cases hf : fetchResult with
    | none =>
      rcases hreach with h | h
      · rw [hk] at h; simp at h
      · rw [hf] at h; simp at h
    | some t =>
      cases hup : uploadFails (get_s3_key cfg model_id) <;>
        simp [cache_model_to_s3, harch, hfast, hk, hf, hup, alookup_aremove]


/-- C1: if the call reaches the upload step and the upload fails, the call
returns failure and cleanup of both tiers has run: no local cache entry for
the identifier remains, and no remote representation (archive object in
archive mode, any object under the identifier's prefix in directory mode)
remains. -/
theorem upload_failure_cleanup (cfg : Config) (uploadFails : Str → Bool)
    (fetchResult : Option Tree) (st : CacheState) (model_id : Str) (force_upload : Bool)
    (hfastA : (cfg.store_as_archive
      && (!force_upload && model_exists_in_s3 (get_s3_key cfg model_id) st.s3)) = false)
    (hfastD : ((!cfg.store_as_archive)
      && (!force_upload && model_dir_exists_in_s3 cfg model_id st.s3)) = false)
    (hreach : (alookup (localName model_id) st.localDir).isSome = true ∨ fetchResult.isSome = true)
    (hfailA : cfg.store_as_archive = true → uploadFails (get_s3_key cfg model_id) = true)
    (hfailD : cfg.store_as_archive = false →
      ∃ f ∈ uploadTree fetchResult st (localName model_id),
        uploadFails (get_s3_prefix_for_dir cfg model_id ++ joinPath f.1) = true) :
    (cache_model_to_s3 cfg uploadFails fetchResult st model_id force_upload).1 = false
    ∧ alookup (localName model_id)
        (cache_model_to_s3 cfg uploadFails fetchResult st model_id force_upload).2.1.localDir = none
    ∧ (cfg.store_as_archive = true →
        alookup (get_s3_key cfg model_id)
          (cache_model_to_s3 cfg uploadFails fetchResult st model_id force_upload).2.1.s3 = none)
    ∧ (cfg.store_as_archive = false →
        ∀ kv ∈ (cache_model_to_s3 cfg uploadFails fetchResult st model_id force_upload).2.1.s3,
          (get_s3_prefix_for_dir cfg model_id).isPrefixOf kv.1 = false) := by
  have hne : localName model_id ≠ localName model_id ++ tarExt :=
    append_ne_self_of_ne_nil (by decide)
  cases hA : cfg.store_as_archive
  · -- directory mode
    have hfastD' : (!force_upload && model_dir_exists_in_s3 cfg model_id st.s3) = false := by
      rw [hA] at hfastD; simpa using hfastD
    have hex := hfailD hA
    cases hk : alookup (localName model_id) st.localDir with
    | some e =>
      have hex' : ∃ f ∈ treeOf (some e),
          uploadFails (get_s3_prefix_for_dir cfg model_id ++ joinPath f.1) = true := by
        simpa [uploadTree, hk] using hex
      have hup := upload_dir_to_s3_fails uploadFails (get_s3_prefix_for_dir cfg model_id)
        (treeOf (some e)) st.s3 hex'
      refine ⟨?_, ?_, ?_, ?_⟩
      · simp [cache_model_to_s3, hA, hfastD', hk, hup]
      · simp [cache_model_to_s3, hA, hfastD', hk, hup]
        exact (delete_both_clean _ _ _).1
      · intro hA'; exact absurd hA' (by decide)
      · intro hff kv hkv
        simp [cache_model_to_s3, hA, hfastD', hk, hup] at hkv
        exact (delete_both_clean _ _ _).2.2 hA kv hkv
    | none =>
      cases hf : fetchResult with
      | none =>
        rcases hreach with h | h
        · rw [hk] at h; simp at h
        · rw [hf] at h; simp at h
      | some t =>
        have hex' : ∃ f ∈ t,
            uploadFails (get_s3_prefix_for_dir cfg model_id ++ joinPath f.1) = true := by
          simpa [uploadTree, hk, hf] using hex
        have hup := upload_dir_to_s3_fails uploadFails (get_s3_prefix_for_dir cfg model_id)
          t st.s3 hex'
        refine ⟨?_, ?_, ?_, ?_⟩
        · simp [cache_model_to_s3, hA, hfastD', hk, hf, alookup_ainsert, treeOf, hup]
        · simp [cache_model_to_s3, hA, hfastD', hk, hf, alookup_ainsert, treeOf, hup]
          exact (delete_both_clean _ _ _).1
        · intro hA'; exact absurd hA' (by decide)
        · intro hff kv hkv
          simp [cache_model_to_s3, hA, hfastD', hk, hf, alookup_ainsert, treeOf, hup] at hkv
          exact (delete_both_clean _ _ _).2.2 hA kv hkv
  · -- archive mode
    have hfastA' : (!force_upload && model_exists_in_s3 (get_s3_key cfg model_id) st.s3) = false := by
      rw [hA] at hfastA; simpa using hfastA
    have hup := hfailA hA
    cases hk : alookup (localName model_id) st.localDir with
    | some e =>
      refine ⟨?_, ?_, ?_, ?_⟩
      · simp [cache_model_to_s3, hA, hfastA', hk, hup]
      · simp [cache_model_to_s3, hA, hfastA', hk, hup]
        rw [alookup_aremove_ne hne]
        exact (delete_both_clean _ _ _).1
      · intro _
        simp [cache_model_to_s3, hA, hfastA', hk, hup]
        exact (delete_both_clean _ _ _).2.1 hA
      · intro hA'; exact absurd hA' (by decide)
    | none =>
      cases hf : fetchResult with
      | none =>
        rcases hreach with h | h
        · rw [hk] at h; simp at h
        · rw [hf] at h; simp at h
      | some t =>
        refine ⟨?_, ?_, ?_, ?_⟩
        · simp [cache_model_to_s3, hA, hfastA', hk, hf, alookup_ainsert, treeOf, hup]
        · simp [cache_model_to_s3, hA, hfastA', hk, hf, alookup_ainsert, treeOf, hup]
          rw [alookup_aremove_ne hne]
          exact (delete_both_clean _ _ _).1
        · intro _
          simp [cache_model_to_s3, hA, hfastA', hk, hf, alookup_ainsert, treeOf, hup]
          exact (delete_both_clean _ _ _).2.1 hA
        · intro hA'; exact absurd hA' (by decide)


/-- The fast path: with `force_upload = False` and the remote representation
present, `cache_model_to_s3` returns `True` at once, leaves the state
unchanged, and invokes neither the fetcher, the compressor, nor any upload. -/
theorem fast_path_hit (cfg : Config) (uploadFails : Str → Bool) (fetchResult : Option Tree)
    (st : CacheState) (model_id : Str)
    (hremA : cfg.store_as_archive = true →
      model_exists_in_s3 (get_s3_key cfg model_id) st.s3 = true)
    (hremD : cfg.store_as_archive = false →
      model_dir_exists_in_s3 cfg model_id st.s3 = true) :
    cache_model_to_s3 cfg uploadFails fetchResult st model_id false = (true, st, ⟨0, 0, 0⟩) := by
  cases hA : cfg.store_as_archive
  · simp [cache_model_to_s3, hA, hremD hA]
  · simp [cache_model_to_s3, hA, hremA hA]


/-- A successful `cache_model_to_s3` call (with a non-empty tree in
directory mode) leaves the remote representation present. -/
theorem success_establishes_remote (cfg : Config) (uploadFails : Str → Bool)
    (fetchResult : Option Tree) (st : CacheState) (model_id : Str)
    (st1 : CacheState) (tr : Trace)
    (h : cache_model_to_s3 cfg uploadFails fetchResult st model_id false = (true, st1, tr))
    (hmode : cfg.store_as_archive = true ∨ uploadTree fetchResult st (localName model_id) ≠ []) :
    (cfg.store_as_archive = true →
      model_exists_in_s3 (get_s3_key cfg model_id) st1.s3 = true)
    ∧ (cfg.store_as_archive = false →
      model_dir_exists_in_s3 cfg model_id st1.s3 = true) := by
  cases hA : cfg.store_as_archive
  · -- directory mode
    refine ⟨fun hA' => absurd hA' (by decide), fun _ => ?_⟩
    by_cases hex : model_dir_exists_in_s3 cfg model_id st.s3 = true
    · have hst : st = st1 := by
        simp [cache_model_to_s3, hA, hex] at h
        exact h.1
      rw [← hst]
      exact hex
    · have hne : uploadTree fetchResult st (localName model_id) ≠ [] := by
        rcases hmode with hm | hm
        · exact absurd (hA.symm.trans hm) (by decide)
        · exact hm
      cases hk : alookup (localName model_id) st.localDir with
      | some e =>
        have htree : uploadTree fetchResult st (localName model_id) = treeOf (some e) := by
          simp [uploadTree, hk]
        rcases hu : upload_dir_to_s3 uploadFails (get_s3_prefix_for_dir cfg model_id)
            (treeOf (some e)) st.s3 with ⟨ok, s3', n⟩
        cases ok
        · simp [cache_model_to_s3, hA, hex, hk, hu] at h
        · have hst1 : st1.s3 = s3' := by
            simp [cache_model_to_s3, hA, hex, hk, hu] at h
            rw [← h.1]
          have hany := upload_dir_to_s3_any uploadFails (get_s3_prefix_for_dir cfg model_id)
            (treeOf (some e)) st.s3 (by rw [hu]) (Or.inl (htree ▸ hne))
          rw [hu] at hany
          show st1.s3.any _ = true
          rw [hst1]
          exact hany
      | none =>
        cases hf : fetchResult with
        | none => simp [cache_model_to_s3, hA, hex, hk, hf] at h
        | some t =>
          have htree : uploadTree fetchResult st (localName model_id) = t := by
            simp [uploadTree, hk, hf]
          rcases hu : upload_dir_to_s3 uploadFails (get_s3_prefix_for_dir cfg model_id)
              t st.s3 with ⟨ok, s3', n⟩
          cases ok
          · simp [cache_model_to_s3, hA, hex, hk, hf, treeOf, alookup_ainsert, hu] at h
          · have hst1 : st1.s3 = s3' := by
              simp [cache_model_to_s3, hA, hex, hk, hf, treeOf, alookup_ainsert, hu] at h
              rw [← h.1]
            have hany := upload_dir_to_s3_any uploadFails (get_s3_prefix_for_dir cfg model_id)
              t st.s3 (by rw [hu]) (Or.inl (htree ▸ hne))
            rw [hu] at hany
            show st1.s3.any _ = true
            rw [hst1]
            exact hany
  · -- archive mode
    refine ⟨fun _ => ?_, fun hA' => absurd hA' (by decide)⟩
    by_cases hex : model_exists_in_s3 (get_s3_key cfg model_id) st.s3 = true
    · have hst : st = st1 := by
        simp [cache_model_to_s3, hA, hex] at h
        exact h.1
      rw [← hst]
      exact hex
    · cases hk : alookup (localName model_id) st.localDir with
      | some e =>
        cases hup : uploadFails (get_s3_key cfg model_id)
        · have hst1 : st1.s3 = ainsert (get_s3_key cfg model_id)
              (Obj.tar (compress_model (localName model_id) (treeOf (some e)))) st.s3 := by
            simp [cache_model_to_s3, hA, hex, hk, hup] at h
            rw [← h.1]
          show (alookup (get_s3_key cfg model_id) st1.s3).isSome = true
          rw [hst1, alookup_ainsert]
          rfl
        · simp [cache_model_to_s3, hA, hex, hk, hup] at h
      | none =>
        cases hf : fetchResult with
        | none => simp [cache_model_to_s3, hA, hex, hk, hf] at h
        | some t =>
          cases hup : uploadFails (get_s3_key cfg model_id)
          · have hst1 : st1.s3 = ainsert (get_s3_key cfg model_id)
                (Obj.tar (compress_model (localName model_id) t)) st.s3 := by
              simp [cache_model_to_s3, hA, hex, hk, hf, treeOf, alookup_ainsert, hup] at h
              rw [← h.1]
            show (alookup (get_s3_key cfg model_id) st1.s3).isSome = true
            rw [hst1, alookup_ainsert]
            rfl
          · simp [cache_model_to_s3, hA, hex, hk, hf, treeOf, alookup_ainsert, hup] at h


/-- C2: when the remote representation for the identifier already exists and
`force_upload` is `False`, `cache_model_to_s3` returns `True` immediately,
leaves the state unchanged and performs no fetch, no compression and no
upload (trace `⟨0,0,0⟩`); consequently, if a first call succeeds (with a
non-empty tree in directory mode), a second call — under any fetch or
transport behavior — is such a fast-path hit, so two consecutive calls fetch
and upload at most once. -/
theorem idempotent_fast_path (cfg : Config) (uploadFails : Str → Bool)
    (fetchResult : Option Tree) (st : CacheState) (model_id : Str) :
    ((cfg.store_as_archive = true →
        model_exists_in_s3 (get_s3_key cfg model_id) st.s3 = true) →
      (cfg.store_as_archive = false →
        model_dir_exists_in_s3 cfg model_id st.s3 = true) →
      cache_model_to_s3 cfg uploadFails fetchResult st model_id false = (true, st, ⟨0, 0, 0⟩))
    ∧ (∀ (st1 : CacheState) (tr : Trace),
        cache_model_to_s3 cfg uploadFails fetchResult st model_id false = (true, st1, tr) →
        (cfg.store_as_archive = true ∨ uploadTree fetchResult st (localName model_id) ≠ []) →
        ∀ (uploadFails' : Str → Bool) (fetchResult' : Option Tree),
          cache_model_to_s3 cfg uploadFails' fetchResult' st1 model_id false
            = (true, st1, ⟨0, 0, 0⟩)) := by
  constructor
  · intro h1 h2
    exact fast_path_hit cfg uploadFails fetchResult st model_id h1 h2
  · intro st1 tr h hmode uploadFails' fetchResult'
    have hrem := success_establishes_remote cfg uploadFails fetchResult st model_id st1 tr h hmode
    exact fast_path_hit cfg uploadFails' fetchResult' st1 model_id hrem.1 hrem.2

/-- Closed instance of `idempotent_fast_path`: a hit on a bucket already
holding the archive object. -/
theorem idempotent_fast_path_witness :
    cache_model_to_s3 ⟨"models/".data, true⟩ (fun _ => false) none
      ⟨[], [("models/a_b.tar.gz".data, Obj.bytes [])]⟩ "a/b".data false
    = (true, ⟨[], [("models/a_b.tar.gz".data, Obj.bytes [])]⟩, ⟨0, 0, 0⟩) :=
  (idempotent_fast_path ⟨"models/".data, true⟩ (fun _ => false) none
      ⟨[], [("models/a_b.tar.gz".data, Obj.bytes [])]⟩ "a/b".data).1
    (fun _ => by decide) (fun hc => absurd hc (by decide))

/-- Closed instance of `upload_failure_cleanup`: a forced transport failure
on the archive upload yields failure with both tiers clean. -/
theorem upload_failure_cleanup_witness :
    (cache_model_to_s3 ⟨"models/".data, true⟩ (fun _ => true) (some [([['f']], [1])])
      ⟨[], []⟩ "a/b".data false).1 = false
    ∧ alookup (localName "a/b".data)
        (cache_model_to_s3 ⟨"models/".data, true⟩ (fun _ => true) (some [([['f']], [1])])
          ⟨[], []⟩ "a/b".data false).2.1.localDir = none :=
  have h := upload_failure_cleanup ⟨"models/".data, true⟩ (fun _ => true)
    (some [([['f']], [1])]) ⟨[], []⟩ "a/b".data false
    (by decide) (by decide) (by decide) (by decide) (by decide)
  ⟨h.1, h.2.1⟩

/-- Closed instance of `temp_archive_always_removed` on a successful upload. -/
theorem temp_archive_always_removed_witness :
    alookup (localName "a/b".data ++ tarExt)
      (cache_model_to_s3 ⟨"models/".data, true⟩ (fun _ => false) (some [([['f']], [1])])
        ⟨[], []⟩ "a/b".data false).2.1.localDir = none :=
  temp_archive_always_removed ⟨"models/".data, true⟩ (fun _ => false)
    (some [([['f']], [1])]) ⟨[], []⟩ "a/b".data false
    (by decide) (by decide) (by decide)

end S3ModelCache
